import Mathlib

/-!
# Verification of the Claude-code-ChatInWindows management core

A shallow embedding of the resource indexers (`SkillsManager`, `AgentsManager`,
`CommandsManager`) and the request router (`ManagementViewProvider._handleMessage`)
of the repository, together with proofs of the specified properties.

The filesystem and the JSON parser are modelled as an explicit environment
(`Env`): every primitive the code calls (`fs.existsSync`, `fs.readdirSync`,
`fs.readFileSync`, `JSON.parse`, `os.homedir`, `process.cwd`) is a field of the
environment; primitives that can throw in JavaScript return `Except String`.
`try`/`catch` blocks of the source become `match` on those `Except` values.
`path.join` is modelled as separator concatenation (paths are opaque keys into
the environment's maps). Mutable manager state (`cachedSkills`, `lastLoadTime`)
becomes explicit state passing.
-/

namespace ClaudeMgmt

/-- The character class matched by the JavaScript regex token for whitespace
(ASCII whitespace, NBSP, BOM and the Unicode line separators; exotic Unicode
space separators are omitted, no input in this development uses them). -/
def jsWhitespace (c : Char) : Bool :=
  c = ' ' || c = '\t' || c = '\n' || c = '\r' || c = '\x0b' || c = '\x0c' ||
  c = '\u00A0' || c = '\u2028' || c = '\u2029' || c = '\uFEFF'

/-- JavaScript line terminators (what the dot of a regex does not match and
what the multiline anchor breaks on). -/
def isLineTerm (c : Char) : Bool :=
  c = '\n' || c = '\r' || c = '\u2028' || c = '\u2029'

/-- Boolean list-prefix test. -/
def isPrefixB : List Char → List Char → Bool
  | [], _ => true
  | _ :: _, [] => false
  | a :: as, b :: bs => a == b && isPrefixB as bs

/-- Boolean substring test on character lists. -/
def isInfixB (pat : List Char) : List Char → Bool
  | [] => isPrefixB pat []
  | c :: t => isPrefixB pat (c :: t) || isInfixB pat t

/-- Model of the JavaScript `String.prototype.includes`. -/
def containsSub (s pat : String) : Bool := isInfixB pat.data s.data

/-- Model of `String.prototype.toLowerCase` on one character (ASCII range;
`toLowerCase` on the inputs of this development touches only ASCII letters). -/
def jsLowerChar (c : Char) : Char :=
  if 65 ≤ c.toNat && c.toNat ≤ 90 then Char.ofNat (c.toNat + 32) else c

/-- Model of `String.prototype.toLowerCase`. -/
def jsToLower (s : String) : String := ⟨s.data.map jsLowerChar⟩

/-- Model of `String.prototype.trim`: strip `jsWhitespace` from both ends. -/
def jsTrim (s : String) : String :=
  ⟨((s.data.dropWhile jsWhitespace).reverse.dropWhile jsWhitespace).reverse⟩

/-- Boolean suffix test on character lists. -/
def endsWithB (pat l : List Char) : Bool := isPrefixB pat.reverse l.reverse

/-- Model of `path.join` for two segments. Paths are opaque keys into the
environment, so `join` is plain separator concatenation. -/
def pathJoin (a b : String) : String := a ++ "/" ++ b

/-- `path.join` for three segments. -/
def pathJoin3 (a b c : String) : String := pathJoin (pathJoin a b) c

/-- One result of `fs.readdirSync(dir, { withFileTypes: true })`: a name and a
directory flag.  The plain `fs.readdirSync(dir)` of the source is modelled by
mapping `DirEnt.name` over the same listing (Node returns names in the same
order in both forms). -/
structure DirEnt where
  name : String
  isDir : Bool
deriving DecidableEq

/-- The environment a manager runs in: every filesystem / platform primitive
called by the source.  `J` is the (abstract) type of parsed JSON values;
`descriptionField` models reading the `.description` property of such a value
(`none` = property absent or not a string).  Primitives that can throw in
JavaScript return `Except String`, carrying the message of the thrown error. -/
structure Env (J : Type) where
  existsSync : String → Bool
  readdirSync : String → Except String (List DirEnt)
  readFileSync : String → Except String String
  parseJson : String → Except String J
  descriptionField : J → Option String
  homedir : Except String String
  cwd : Except String String

/-- `SkillLocation` of `SkillsManager.ts`. -/
inductive SkillLocation where
  | user
  | project
  | managed
deriving DecidableEq

/-- Rank of a location in the fixed precedence order user, project, managed. -/
def locRank : SkillLocation → Nat
  | .user => 0
  | .project => 1
  | .managed => 2

/-- The `Skill` record of `SkillsManager.ts`. -/
structure Skill where
  name : String
  location : SkillLocation
  path : String
  description : Option String
  pluginName : Option String
  hasReadme : Bool
  hasPrompt : Bool
deriving DecidableEq

/-- JavaScript `x || undefined` applied to an optional string: the empty
string is falsy and collapses to `undefined`. -/
def jsOrUndefined : Option String → Option String
  | some s => if s = "" then none else some s
  | none => none

/-- Body of the per-entry loop of `SkillsManager.loadSkillsFromDirectory`:
skip non-directories, require `skill.json`, read and parse it (the inner
`try`/`catch` turns a read or parse throw into a skip), and assemble the
`Skill`.  `none` = the entry contributes nothing. -/
def processSkillEntry {J : Type} (env : Env J) (dirPath : String)
    (location : SkillLocation) (pluginName : Option String) (entry : DirEnt) :
    Option Skill :=
  if !entry.isDir then none
  else
    let skillPath := pathJoin dirPath entry.name
    let skillJsonPath := pathJoin skillPath "skill.json"
    let readmePath := pathJoin skillPath "README.md"
    let promptPath := pathJoin skillPath "prompt.md"
    if !env.existsSync skillJsonPath then none
    else
      match (env.readFileSync skillJsonPath).bind env.parseJson with
      | .error _ => none
      | .ok skillJson =>
          some {
            name := entry.name
            location := location
            path := skillPath
            description := jsOrUndefined (env.descriptionField skillJson)
            pluginName := pluginName
            hasReadme := env.existsSync readmePath
            hasPrompt := env.existsSync promptPath
          }

/-- `SkillsManager.loadSkillsFromDirectory`.  A missing root or a throwing
`readdirSync` (caught by the method's own `try`/`catch` before anything was
accumulated) yields the empty list. -/
def loadSkillsFromDirectory {J : Type} (env : Env J) (dirPath : String)
    (location : SkillLocation) (pluginName : Option String) : List Skill :=
  if !env.existsSync dirPath then []
  else
    match env.readdirSync dirPath with
    | .error _ => []
    | .ok entries => entries.filterMap (processSkillEntry env dirPath location pluginName)

/-- Inner plugin loop of `SkillsManager.loadManagedSkills`: for each plugin
directory that has a `skills` subdirectory, scan it as `managed` with that
plugin's name. -/
def scanMarketplacePlugins {J : Type} (env : Env J) (pluginsDir : String) :
    List String → List Skill
  | [] => []
  | pluginName :: rest =>
      let pluginPath := pathJoin pluginsDir pluginName
      let skillsDir := pathJoin pluginPath "skills"
      (if env.existsSync skillsDir then
        loadSkillsFromDirectory env skillsDir .managed (some pluginName)
      else []) ++ scanMarketplacePlugins env pluginsDir rest

/-- Marketplace loop of `SkillsManager.loadManagedSkills`.  A throwing
`readdirSync` on a marketplace's `plugins` directory reaches the method's
`catch`, which returns what was accumulated so far: the recursion stops and
the remaining marketplaces contribute nothing. -/
def scanMarketplaces {J : Type} (env : Env J) (pluginsPath : String) :
    List String → List Skill
  | [] => []
  | marketplace :: rest =>
      let marketplacePath := pathJoin pluginsPath marketplace
      let pluginsDir := pathJoin marketplacePath "plugins"
      if !env.existsSync pluginsDir then scanMarketplaces env pluginsPath rest
      else
        match env.readdirSync pluginsDir with
        | .error _ => []
        | .ok plugins =>
            scanMarketplacePlugins env pluginsDir (plugins.map DirEnt.name) ++
              scanMarketplaces env pluginsPath rest

/-- `SkillsManager.loadManagedSkills` after `os.homedir()` has been obtained. -/
def managedSkillsScan {J : Type} (env : Env J) (homeDir : String) : List Skill :=
  let pluginsPath := pathJoin (pathJoin3 homeDir ".claude" "plugins") "marketplaces"
  if !env.existsSync pluginsPath then []
  else
    match env.readdirSync pluginsPath with
    | .error _ => []
    | .ok marketplaces => scanMarketplaces env pluginsPath (marketplaces.map DirEnt.name)

/-- `SkillsManager.loadUserSkills`; `os.homedir()` is called outside any
`try`, so its throw propagates (hence `Except`). -/
def loadUserSkills {J : Type} (env : Env J) : Except String (List Skill) := do
  let homeDir ← env.homedir
  pure (loadSkillsFromDirectory env (pathJoin3 homeDir ".claude" "skills") .user none)

/-- `SkillsManager.loadProjectSkills`. -/
def loadProjectSkills {J : Type} (env : Env J) : Except String (List Skill) := do
  let cwd ← env.cwd
  pure (loadSkillsFromDirectory env (pathJoin3 cwd ".claude" "skills") .project none)

/-- `SkillsManager.loadManagedSkills` (the `os.homedir()` call sits before the
method's `try`, so its throw propagates to `loadSkills`). -/
def loadManagedSkills {J : Type} (env : Env J) : Except String (List Skill) := do
  let homeDir ← env.homedir
  pure (managedSkillsScan env homeDir)

/-- Mutable state of the `SkillsManager` singleton. -/
structure SkillsState where
  cachedSkills : Option (List Skill)
  lastLoadTime : Nat
deriving DecidableEq

/-- Body of the `try` of `SkillsManager.loadSkills`: the three scans in fixed
order, concatenated. -/
def loadSkillsCore {J : Type} (env : Env J) : Except String (List Skill) := do
  let userSkills ← loadUserSkills env
  let projectSkills ← loadProjectSkills env
  let managedSkills ← loadManagedSkills env
  pure (userSkills ++ projectSkills ++ managedSkills)

/-- `SkillsManager.loadSkills`.  `now` is the value `Date.now()` would return.
Returns the list handed to the caller and the state after the call.  Note the
JavaScript truthiness test `this.cachedSkills && !forceReload`: an empty cached
array is truthy, so `some []` counts as a cache hit. -/
def loadSkills {J : Type} (env : Env J) (now : Nat) (forceReload : Bool)
    (st : SkillsState) : List Skill × SkillsState :=
  match st.cachedSkills, forceReload with
  | some cached, false => (cached, st)
  | _, _ =>
      match loadSkillsCore env with
      | .ok skills => (skills, { cachedSkills := some skills, lastLoadTime := now })
      | .error _ => ([], { cachedSkills := some [], lastLoadTime := st.lastLoadTime })

/-- The `SkillDetails` record of `SkillsManager.ts` (`{ ...skill }` plus the
three file contents). -/
structure SkillDetails (J : Type) extends Skill where
  skillJson : Option J
  readmeContent : Option String
  promptContent : Option String
deriving DecidableEq

/-- `if (fs.existsSync(p)) x = fs.readFileSync(p, 'utf-8')`: an optional read
whose failure throws. -/
def readOptional {J : Type} (env : Env J) (p : String) : Except String (Option String) :=
  if env.existsSync p then (env.readFileSync p).map some else .ok none

/-- Optional read followed by `JSON.parse`; failure of either throws. -/
def readOptionalJson {J : Type} (env : Env J) (p : String) : Except String (Option J) :=
  if env.existsSync p then ((env.readFileSync p).bind env.parseJson).map some else .ok none

/-- `SkillsManager.getSkillDetails`.  The method's `try`/`catch` turns any
throw (from the three reads) into a `null` result; the state mutated by the
embedded non-forcing `loadSkills` persists either way. -/
def getSkillDetails {J : Type} (env : Env J) (now : Nat) (skillName : String)
    (location : SkillLocation) (st : SkillsState) :
    Option (SkillDetails J) × SkillsState :=
  let res := loadSkills env now false st
  match res.1.find? (fun s => s.name == skillName && s.location == location) with
  | none => (none, res.2)
  | some skill =>
      match readOptionalJson env (pathJoin skill.path "skill.json") with
      | .error _ => (none, res.2)
      | .ok sj =>
          match readOptional env (pathJoin skill.path "README.md") with
          | .error _ => (none, res.2)
          | .ok rc =>
              match readOptional env (pathJoin skill.path "prompt.md") with
              | .error _ => (none, res.2)
              | .ok pc =>
                  (some { toSkill := skill, skillJson := sj,
                          readmeContent := rc, promptContent := pc }, res.2)

/-- Text-match part of the filter predicate of `SkillsManager.searchSkills`:
any of `name`, `description` (when present) and `pluginName` (when present)
contains the lower-cased query (an absent field is `undefined`, hence falsy). -/
def skillMatchesQuery (lowerQuery : String) (skill : Skill) : Bool :=
  let matchesName := containsSub (jsToLower skill.name) lowerQuery
  let matchesDescription :=
    (skill.description.map (fun d => containsSub (jsToLower d) lowerQuery)).getD false
  let matchesPlugin :=
    (skill.pluginName.map (fun p => containsSub (jsToLower p) lowerQuery)).getD false
  matchesName || matchesDescription || matchesPlugin

/-- Location part of the filter predicate of `SkillsManager.searchSkills`. -/
def locationOk (locationFilter : Option SkillLocation) (skill : Skill) : Bool :=
  match locationFilter with
  | some lf => skill.location == lf
  | none => true

/-- `SkillsManager.searchSkills`. -/
def searchSkills {J : Type} (env : Env J) (now : Nat) (query : String)
    (locationFilter : Option SkillLocation) (st : SkillsState) :
    List Skill × SkillsState :=
  let res := loadSkills env now false st
  let lowerQuery := jsToLower query
  (res.1.filter (fun skill => locationOk locationFilter skill &&
      skillMatchesQuery lowerQuery skill),
   res.2)

/-! ## Description extraction (shared verbatim by `AgentsManager.extractDescription`
and `CommandsManager.extractDescription`)

The two regexes are embedded with JavaScript backtracking semantics:
a greedy whitespace star tries the longest run first and gives characters back
until the rest of the pattern matches; a lazy any-star takes the shortest
extension, i.e. cuts at the first occurrence of the closing marker. -/

/-- Prefix of `l` strictly before the first occurrence of the four-character
closing marker (newline followed by three dashes); `none` if the marker does
not occur.  This is the lazy group capture of the frontmatter regex. -/
def beforeMarker : List Char → Option (List Char)
  | [] => none
  | c :: rest =>
      if isPrefixB ("\n---".data) (c :: rest) then some []
      else (beforeMarker rest).map (fun l => c :: l)

/-- Attempt of the frontmatter regex with the whitespace star bound to exactly
`k` characters: the next character must be a newline and the closing marker
must occur after it. -/
def fmAt (t : List Char) (k : Nat) : Option (List Char) :=
  match t.drop k with
  | '\n' :: rest => beforeMarker rest
  | _ => none

/-- Backtracking search for the frontmatter regex: try the whitespace star at
length `k`, `k-1`, ..., `0` (greedy: longest first). -/
def fmSearch (t : List Char) : Nat → Option (List Char)
  | 0 => fmAt t 0
  | k + 1 =>
      match fmAt t (k + 1) with
      | some cap => some cap
      | none => fmSearch t k

/-- The frontmatter regex of `extractDescription` (anchored at the start of
the content, no multiline flag): three dashes, greedy whitespace, a newline,
the lazy capture, then newline and three dashes. Returns the capture. -/
def frontmatterCapture (content : List Char) : Option (List Char) :=
  if isPrefixB ("---".data) content then
    let t := content.drop 3
    fmSearch t (t.takeWhile jsWhitespace).length
  else none

/-- The final greedy one-or-more-of-any group: at offset `k` of `t` there must
be at least one non-terminator character; the capture extends to the end of
that line. -/
def dotPlusAt (t : List Char) (k : Nat) : Option (List Char) :=
  match t.drop k with
  | [] => none
  | c :: rest =>
      if isLineTerm c then none
      else some (c :: rest.takeWhile (fun d => !isLineTerm d))

/-- Backtracking for a greedy whitespace star followed by the line capture,
trying star lengths `k`, ..., `0`. -/
def wsStarBacktrack (t : List Char) : Nat → Option (List Char)
  | 0 => dotPlusAt t 0
  | k + 1 =>
      match dotPlusAt t (k + 1) with
      | some cap => some cap
      | none => wsStarBacktrack t k

/-- Tail of the description regex after the literal: whitespace star, then the
line capture. -/
def matchDescTail (t : List Char) : Option (List Char) :=
  wsStarBacktrack t (t.takeWhile jsWhitespace).length

/-- Backtracking for a greedy whitespace plus (at least one character)
followed by the line capture, trying star lengths `k`, ..., `1`. -/
def wsPlusBacktrack (t : List Char) : Nat → Option (List Char)
  | 0 => none
  | k + 1 =>
      match dotPlusAt t (k + 1) with
      | some cap => some cap
      | none => wsPlusBacktrack t k

/-- Tail of the heading regex after the hash: whitespace plus, then the line
capture. -/
def matchTitleTail (t : List Char) : Option (List Char) :=
  wsPlusBacktrack t (t.takeWhile jsWhitespace).length

/-- The description regex (unanchored): at each position in turn, try the
literal `description:` followed by `matchDescTail`; the first position where
the whole pattern matches wins. -/
def descSearch : List Char → Option (List Char)
  | [] => none
  | c :: rest =>
      if isPrefixB ("description:".data) (c :: rest) then
        match matchDescTail ((c :: rest).drop 12) with
        | some cap => some cap
        | none => descSearch rest
      else descSearch rest

/-- The heading regex (multiline anchor): at each line start in turn, try a
hash followed by `matchTitleTail`.  The flag records whether the current
position is a line start. -/
def titleSearch : Bool → List Char → Option (List Char)
  | _, [] => none
  | atLineStart, c :: rest =>
      if atLineStart && c = '#' then
        match matchTitleTail rest with
        | some cap => some cap
        | none => titleSearch (isLineTerm c) rest
      else titleSearch (isLineTerm c) rest

/-- `extractDescription` (identical private methods of `AgentsManager` and
`CommandsManager`): frontmatter `description:` line first, else first heading
line, else absent. -/
def extractDescription (content : String) : Option String :=
  let titleResult :=
    match titleSearch true content.data with
    | some cap => some (jsTrim ⟨cap⟩)
    | none => none
  match frontmatterCapture content.data with
  | some frontmatter =>
      match descSearch frontmatter with
      | some cap => some (jsTrim ⟨cap⟩)
      | none => titleResult
  | none => titleResult

/-! ## AgentsManager -/

/-- The `Agent` record of `AgentsManager.ts`. -/
structure Agent where
  name : String
  path : String
  description : Option String
  hasReadme : Bool
deriving DecidableEq

/-- `path.basename(file, '.md')` for a bare directory-listing name: the
extension is stripped when it is a proper suffix (Node keeps a name that is
exactly the extension). -/
def basenameDropMd (file : String) : String :=
  if endsWithB (".md".data) file.data && decide (3 < file.data.length) then
    ⟨file.data.take (file.data.length - 3)⟩
  else file

/-- Body of the per-file loop of `AgentsManager.loadAgentsFromDirectory`:
keep only `.md` files, read the content (the inner `try`/`catch` turns a read
throw into a skip), extract the description, check the conventional README
path. -/
def processAgentFile {J : Type} (env : Env J) (dirPath : String) (file : String) :
    Option Agent :=
  if !endsWithB (".md".data) file.data then none
  else
    let agentPath := pathJoin dirPath file
    let agentName := basenameDropMd file
    let readmePath := pathJoin3 dirPath agentName "README.md"
    match env.readFileSync agentPath with
    | .error _ => none
    | .ok content =>
        some {
          name := agentName
          path := agentPath
          description := extractDescription content
          hasReadme := env.existsSync readmePath
        }

/-- `AgentsManager.loadAgentsFromDirectory`. -/
def loadAgentsFromDirectory {J : Type} (env : Env J) (dirPath : String) : List Agent :=
  if !env.existsSync dirPath then []
  else
    match env.readdirSync dirPath with
    | .error _ => []
    | .ok files => (files.map DirEnt.name).filterMap (processAgentFile env dirPath)

/-- Mutable state of the `AgentsManager` singleton. -/
structure AgentsState where
  cachedAgents : Option (List Agent)
  lastLoadTime : Nat
deriving DecidableEq

/-- Body of the `try` of `AgentsManager.loadAgents` (`os.homedir()` can
throw). -/
def loadAgentsCore {J : Type} (env : Env J) : Except String (List Agent) := do
  let homeDir ← env.homedir
  pure (loadAgentsFromDirectory env (pathJoin3 homeDir ".claude" "agents"))

/-- `AgentsManager.loadAgents`. -/
def loadAgents {J : Type} (env : Env J) (now : Nat) (forceReload : Bool)
    (st : AgentsState) : List Agent × AgentsState :=
  match st.cachedAgents, forceReload with
  | some cached, false => (cached, st)
  | _, _ =>
      match loadAgentsCore env with
      | .ok agents => (agents, { cachedAgents := some agents, lastLoadTime := now })
      | .error _ => ([], { cachedAgents := some [], lastLoadTime := st.lastLoadTime })

/-- The `AgentDetails` record of `AgentsManager.ts`. -/
structure AgentDetails extends Agent where
  content : Option String
  readmeContent : Option String
deriving DecidableEq

/-- `AgentsManager.getAgentDetails`; any throw inside the `try` (the two reads
and the `os.homedir()` call, which here sits inside the `try`) yields `null`. -/
def getAgentDetails {J : Type} (env : Env J) (now : Nat) (agentName : String)
    (st : AgentsState) : Option AgentDetails × AgentsState :=
  let res := loadAgents env now false st
  match res.1.find? (fun a => a.name == agentName) with
  | none => (none, res.2)
  | some agent =>
      match readOptional env agent.path with
      | .error _ => (none, res.2)
      | .ok c =>
          match env.homedir with
          | .error _ => (none, res.2)
          | .ok homeDir =>
              match readOptional env
                  (pathJoin (pathJoin (pathJoin3 homeDir ".claude" "agents") agentName)
                    "README.md") with
              | .error _ => (none, res.2)
              | .ok rc => (some { toAgent := agent, content := c, readmeContent := rc }, res.2)

/-! ## CommandsManager (same shape as AgentsManager) -/

/-- The `Command` record of `CommandsManager.ts`. -/
structure Command where
  name : String
  path : String
  description : Option String
  hasReadme : Bool
deriving DecidableEq

/-- Body of the per-file loop of `CommandsManager.loadCommandsFromDirectory`. -/
def processCommandFile {J : Type} (env : Env J) (dirPath : String) (file : String) :
    Option Command :=
  if !endsWithB (".md".data) file.data then none
  else
    let commandPath := pathJoin dirPath file
    let commandName := basenameDropMd file
    let readmePath := pathJoin3 dirPath commandName "README.md"
    match env.readFileSync commandPath with
    | .error _ => none
    | .ok content =>
        some {
          name := commandName
          path := commandPath
          description := extractDescription content
          hasReadme := env.existsSync readmePath
        }

/-- `CommandsManager.loadCommandsFromDirectory`. -/
def loadCommandsFromDirectory {J : Type} (env : Env J) (dirPath : String) : List Command :=
  if !env.existsSync dirPath then []
  else
    match env.readdirSync dirPath with
    | .error _ => []
    | .ok files => (files.map DirEnt.name).filterMap (processCommandFile env dirPath)

/-- Mutable state of the `CommandsManager` singleton. -/
structure CommandsState where
  cachedCommands : Option (List Command)
  lastLoadTime : Nat
deriving DecidableEq

/-- Body of the `try` of `CommandsManager.loadCommands`. -/
def loadCommandsCore {J : Type} (env : Env J) : Except String (List Command) := do
  let homeDir ← env.homedir
  pure (loadCommandsFromDirectory env (pathJoin3 homeDir ".claude" "commands"))

/-- `CommandsManager.loadCommands`. -/
def loadCommands {J : Type} (env : Env J) (now : Nat) (forceReload : Bool)
    (st : CommandsState) : List Command × CommandsState :=
  match st.cachedCommands, forceReload with
  | some cached, false => (cached, st)
  | _, _ =>
      match loadCommandsCore env with
      | .ok commands => (commands, { cachedCommands := some commands, lastLoadTime := now })
      | .error _ => ([], { cachedCommands := some [], lastLoadTime := st.lastLoadTime })

/-! ## Request router (`ManagementViewProvider._handleMessage`)

Only the dispatch layer is embedded; the bodies of the individual handlers are
abstracted as a behaviour function (which messages a handler posts through
`_sendMessage`, and whether it throws), since the claims about the router are
independent of handler internals. -/

/-- An inbound webview message, as far as the router inspects it: its string
tag and its correlation identifier (`requestId` may be absent).  `ρ` is the
type of correlation identifiers. -/
structure InboundMsg (ρ : Type) where
  type : String
  requestId : Option ρ
deriving DecidableEq

/-- A message posted back to the webview: tag, echoed correlation identifier,
and the error text for error responses. -/
structure OutMsg (ρ : Type) where
  type : String
  requestId : Option ρ
  error : Option String
deriving DecidableEq

/-- One run of a handler: the messages it posted before finishing, and --- if
it threw --- the thrown value (`some m` = an `Error` whose message is `m`,
`none` = a non-`Error` value). -/
structure HandlerRun (ρ : Type) where
  sent : List (OutMsg ρ)
  thrown : Option (Option String)
deriving DecidableEq

/-- `error instanceof Error ? error.message : 'Unknown error'`. -/
def jsErrorText : Option String → String
  | some m => m
  | none => "Unknown error"

/-- The message tags with a `case` in the `switch` of `_handleMessage`. -/
def recognizedTags : List String :=
  ["getPlugins", "enablePlugin", "disablePlugin", "getPluginStatus",
   "getSkills", "getSkillDetails", "searchSkills",
   "getCommands", "getCommandDetails",
   "getAgents", "getAgentDetails"]

/-- `ManagementViewProvider._handleMessage`: dispatch on the tag; an
unrecognized tag only logs (posts nothing); a throw from the dispatched
handler is caught and answered with a single error response echoing the
correlation identifier.  The result is the list of messages posted. -/
def handleMessage {ρ : Type} (handlers : String → InboundMsg ρ → HandlerRun ρ)
    (msg : InboundMsg ρ) : List (OutMsg ρ) :=
  if recognizedTags.contains msg.type then
    let run := handlers msg.type msg
    match run.thrown with
    | none => run.sent
    | some e =>
        run.sent ++ [{ type := "error", requestId := msg.requestId,
                       error := some (jsErrorText e) }]
  else []

/-! ## Helper lemmas -/

/-- `Char.ofNat` round-trips on the basic plane. -/
theorem char_toNat_ofNat_lt {n : Nat} (h : n < 55296) : (Char.ofNat n).toNat = n := by
  unfold Char.ofNat
  rw [dif_pos (Or.inl h)]
  rfl

/-- ASCII lower-casing is idempotent. -/
theorem jsLowerChar_idem (c : Char) : jsLowerChar (jsLowerChar c) = jsLowerChar c := by
  unfold jsLowerChar
  split
  · rename_i h
    simp only [Bool.and_eq_true, decide_eq_true_eq] at h
    have hv : (Char.ofNat (c.toNat + 32)).toNat = c.toNat + 32 :=
      char_toNat_ofNat_lt (by omega)
    rw [if_neg]
    simp only [Bool.and_eq_true, decide_eq_true_eq, not_and, hv]
    intro _
    omega
  · rfl

/-- `toLowerCase` is idempotent. -/
theorem jsToLower_idem (s : String) : jsToLower (jsToLower s) = jsToLower s := by
  unfold jsToLower
  simp only [List.map_map]
  congr 1
  exact List.map_congr_left (fun c _ => jsLowerChar_idem c)

/-- The empty pattern is a substring of everything. -/
theorem isInfixB_nil (l : List Char) : isInfixB [] l = true := by
  cases l <;> simp [isInfixB, isPrefixB]

/-- Reduction of `loadSkills` under a forced reload. -/
theorem loadSkills_force {J : Type} (env : Env J) (now : Nat) (st : SkillsState) :
    loadSkills env now true st =
      match loadSkillsCore env with
      | .ok skills => (skills, { cachedSkills := some skills, lastLoadTime := now })
      | .error _ => ([], { cachedSkills := some [], lastLoadTime := st.lastLoadTime }) := by
  rcases st with ⟨cs, t⟩
  cases cs <;> rfl

/-- Reduction of `loadAgents` under a forced reload. -/
theorem loadAgents_force {J : Type} (env : Env J) (now : Nat) (st : AgentsState) :
    loadAgents env now true st =
      match loadAgentsCore env with
      | .ok agents => (agents, { cachedAgents := some agents, lastLoadTime := now })
      | .error _ => ([], { cachedAgents := some [], lastLoadTime := st.lastLoadTime }) := by
  rcases st with ⟨cs, t⟩
  cases cs <;> rfl

/-- Reduction of `loadCommands` under a forced reload. -/
theorem loadCommands_force {J : Type} (env : Env J) (now : Nat) (st : CommandsState) :
    loadCommands env now true st =
      match loadCommandsCore env with
      | .ok commands => (commands, { cachedCommands := some commands, lastLoadTime := now })
      | .error _ => ([], { cachedCommands := some [], lastLoadTime := st.lastLoadTime }) := by
  rcases st with ⟨cs, t⟩
  cases cs <;> rfl

/-- Claim C7: for every resource kind and fixed environment, a forced load
followed immediately by a non-forcing load returns the identical sequence and
leaves the state unchanged: the second call is answered verbatim from the
cache the first call stored. -/
theorem c7_forced_then_cached_load {J : Type} (env : Env J) (n1 n2 : Nat) :
    (∀ st : SkillsState,
      loadSkills env n2 false (loadSkills env n1 true st).2 = loadSkills env n1 true st) ∧
    (∀ st : AgentsState,
      loadAgents env n2 false (loadAgents env n1 true st).2 = loadAgents env n1 true st) ∧
    (∀ st : CommandsState,
      loadCommands env n2 false (loadCommands env n1 true st).2 =
        loadCommands env n1 true st) := by
  refine ⟨fun st => ?_, fun st => ?_, fun st => ?_⟩
  · rw [loadSkills_force env n1 st]
    cases loadSkillsCore env <;> rfl
  · rw [loadAgents_force env n1 st]
    cases loadAgentsCore env <;> rfl
  · rw [loadCommands_force env n1 st]
    cases loadCommandsCore env <;> rfl

/-- Claim C6: when the body of a load throws (here: when the `Except`-valued
core errors), the load stores the empty list as the cache and returns the
empty list instead of surfacing the error. -/
theorem c6_load_failure_yields_empty {J : Type} (env : Env J) (now : Nat) :
    (∀ (e : String) (st : SkillsState), loadSkillsCore env = .error e →
      loadSkills env now true st =
        ([], { cachedSkills := some [], lastLoadTime := st.lastLoadTime })) ∧
    (∀ (e : String) (st : CommandsState), loadCommandsCore env = .error e →
      loadCommands env now true st =
        ([], { cachedCommands := some [], lastLoadTime := st.lastLoadTime })) ∧
    (∀ (e : String) (st : AgentsState), loadAgentsCore env = .error e →
      loadAgents env now true st =
        ([], { cachedAgents := some [], lastLoadTime := st.lastLoadTime })) := by
  refine ⟨fun e st h => ?_, fun e st h => ?_, fun e st h => ?_⟩
  · rw [loadSkills_force env now st, h]
  · rw [loadCommands_force env now st, h]
  · rw [loadAgents_force env now st, h]

/-- An environment in which `os.homedir()` throws, so every load core errors. -/
def envNoHome : Env Unit where
  existsSync := fun _ => false
  readdirSync := fun _ => .error "boom"
  readFileSync := fun _ => .error "boom"
  parseJson := fun _ => .ok ()
  descriptionField := fun _ => none
  homedir := .error "no home"
  cwd := .error "no cwd"

/-- Witness for C6 at a concrete environment whose `homedir` throws. -/
theorem c6_load_failure_yields_empty_witness :
    loadSkills envNoHome 5 true ⟨none, 3⟩ = ([], ⟨some [], 3⟩) ∧
    loadCommands envNoHome 5 true ⟨none, 3⟩ = ([], ⟨some [], 3⟩) ∧
    loadAgents envNoHome 5 true ⟨none, 3⟩ = ([], ⟨some [], 3⟩) :=
  ⟨(c6_load_failure_yields_empty envNoHome 5).1 "no home" ⟨none, 3⟩ rfl,
   (c6_load_failure_yields_empty envNoHome 5).2.1 "no home" ⟨none, 3⟩ rfl,
   (c6_load_failure_yields_empty envNoHome 5).2.2 "no home" ⟨none, 3⟩ rfl⟩

/-- A materialized skill carries the location tag of its scan. -/
theorem processSkillEntry_location {J : Type} {env : Env J} {d : String}
    {loc : SkillLocation} {pn : Option String} {e : DirEnt} {s : Skill}
    (h : processSkillEntry env d loc pn e = some s) : s.location = loc := by
  unfold processSkillEntry at h
  simp only [] at h
  split at h
  · exact absurd h (by simp)
  · split at h
    · exact absurd h (by simp)
    · split at h
      · exact absurd h (by simp)
      · injection h with h1
        subst h1
        rfl

/-- Every skill of a directory scan carries the scan's location tag. -/
theorem mem_loadSkillsFromDirectory_location {J : Type} {env : Env J} {d : String}
    {loc : SkillLocation} {pn : Option String} {s : Skill}
    (h : s ∈ loadSkillsFromDirectory env d loc pn) : s.location = loc := by
  unfold loadSkillsFromDirectory at h
  split at h
  · simp at h
  · split at h
    · simp at h
    · obtain ⟨e, _, he⟩ := List.mem_filterMap.mp h
      exact processSkillEntry_location he

/-- Every skill of the plugin loop is managed. -/
theorem mem_scanMarketplacePlugins_location {J : Type} {env : Env J} {pd : String}
    {s : Skill} : ∀ {l : List String},
    s ∈ scanMarketplacePlugins env pd l → s.location = .managed := by
  intro l
  induction l with
  | nil => intro h; simp [scanMarketplacePlugins] at h
  | cons p rest ih =>
      intro h
      unfold scanMarketplacePlugins at h
      simp only [] at h
      rcases List.mem_append.mp h with h1 | h2
      · split at h1
        · exact mem_loadSkillsFromDirectory_location h1
        · simp at h1
      · exact ih h2

/-- Every skill of the marketplace loop is managed. -/
theorem mem_scanMarketplaces_location {J : Type} {env : Env J} {pp : String}
    {s : Skill} : ∀ {l : List String},
    s ∈ scanMarketplaces env pp l → s.location = .managed := by
  intro l
  induction l with
  | nil => intro h; simp [scanMarketplaces] at h
  | cons m rest ih =>
      intro h
      unfold scanMarketplaces at h
      simp only [] at h
      split at h
      · exact ih h
      · split at h
        · simp at h
        · rcases List.mem_append.mp h with h1 | h2
          · exact mem_scanMarketplacePlugins_location h1
          · exact ih h2

/-- Every skill of the managed scan is managed. -/
theorem mem_managedSkillsScan_location {J : Type} {env : Env J} {h : String}
    {s : Skill} (hs : s ∈ managedSkillsScan env h) : s.location = .managed := by
  unfold managedSkillsScan at hs
  simp only [] at hs
  split at hs
  · simp at hs
  · split at hs
    · simp at hs
    · exact mem_scanMarketplaces_location hs

/-- A list whose members all have location rank `k` is rank-monotone. -/
theorem pairwise_rank_of_const {l : List Skill} {k : Nat}
    (h : ∀ s ∈ l, locRank s.location = k) :
    l.Pairwise (fun a b => locRank a.location ≤ locRank b.location) :=
  List.pairwise_of_forall_mem_list (fun a ha b hb => by rw [h a ha, h b hb])

/-- Claim C1: a forced Skills load scans the user location, then the project
location, then the managed locations, and returns the concatenation in that
order; consequently in the returned sequence the location ranks are monotone
(every user entry precedes every project entry, which precedes every managed
entry), whatever the enumeration inside each location produced. -/
theorem c1_forced_load_location_order {J : Type} (env : Env J) (now : Nat)
    (st : SkillsState) :
    (∀ h c, env.homedir = .ok h → env.cwd = .ok c →
      (loadSkills env now true st).1 =
        loadSkillsFromDirectory env (pathJoin3 h ".claude" "skills") .user none ++
        loadSkillsFromDirectory env (pathJoin3 c ".claude" "skills") .project none ++
        managedSkillsScan env h) ∧
    List.Pairwise (fun a b => locRank a.location ≤ locRank b.location)
      (loadSkills env now true st).1 := by
  have hcore : ∀ h c, env.homedir = .ok h → env.cwd = .ok c →
      loadSkillsCore env = .ok
        (loadSkillsFromDirectory env (pathJoin3 h ".claude" "skills") .user none ++
         loadSkillsFromDirectory env (pathJoin3 c ".claude" "skills") .project none ++
         managedSkillsScan env h) := by
    intro h c hh hc
    unfold loadSkillsCore loadUserSkills loadProjectSkills loadManagedSkills
    rw [hh, hc]
    rfl
  constructor
  · intro h c hh hc
    rw [loadSkills_force env now st, hcore h c hh hc]
  · rw [loadSkills_force env now st]
    rcases hco : loadSkillsCore env with e | skills
    · simp
    · simp only []
      have : skills =
          (loadUserSkills env).toOption.getD [] ++ ((loadProjectSkills env).toOption.getD [] ++
            (loadManagedSkills env).toOption.getD []) := by
        unfold loadSkillsCore at hco
        rcases hu : loadUserSkills env with eu | u <;> rw [hu] at hco
        · exact absurd hco (by simp [Bind.bind, Except.bind])
        · rcases hp : loadProjectSkills env with ep | p <;> rw [hp] at hco
          · exact absurd hco (by simp [Bind.bind, Except.bind])
          · rcases hm : loadManagedSkills env with em | m <;> rw [hm] at hco
            · exact absurd hco (by simp [Bind.bind, Except.bind])
            · simp only [Bind.bind, Except.bind, pure, Except.pure] at hco
              injection hco with hx
              simp [Except.toOption, ← hx, List.append_assoc]
      rw [this]
      have huser : ∀ s ∈ (loadUserSkills env).toOption.getD [],
          locRank s.location = 0 := by
        intro s hs
        rcases hu : loadUserSkills env with eu | u <;> rw [hu] at hs
        · simp [Except.toOption] at hs
        · simp only [Except.toOption, Option.getD] at hs
          unfold loadUserSkills at hu
          rcases hh : env.homedir with eh | h <;> rw [hh] at hu
          · exact absurd hu (by simp [Bind.bind, Except.bind])
          · simp only [Bind.bind, Except.bind, pure, Except.pure] at hu
            injection hu with hx
            rw [← hx] at hs
            rw [mem_loadSkillsFromDirectory_location hs]
            rfl
      have hproj : ∀ s ∈ (loadProjectSkills env).toOption.getD [],
          locRank s.location = 1 := by
        intro s hs
        rcases hp : loadProjectSkills env with ep | p <;> rw [hp] at hs
        · simp [Except.toOption] at hs
        · simp only [Except.toOption, Option.getD] at hs
          unfold loadProjectSkills at hp
          rcases hc : env.cwd with ec | c <;> rw [hc] at hp
          · exact absurd hp (by simp [Bind.bind, Except.bind])
          · simp only [Bind.bind, Except.bind, pure, Except.pure] at hp
            injection hp with hx
            rw [← hx] at hs
            rw [mem_loadSkillsFromDirectory_location hs]
            rfl
      have hman : ∀ s ∈ (loadManagedSkills env).toOption.getD [],
          locRank s.location = 2 := by
        intro s hs
        rcases hm : loadManagedSkills env with em | m <;> rw [hm] at hs
        · simp [Except.toOption] at hs
        · simp only [Except.toOption, Option.getD] at hs
          unfold loadManagedSkills at hm
          rcases hh : env.homedir with eh | h <;> rw [hh] at hm
          · exact absurd hm (by simp [Bind.bind, Except.bind])
          · simp only [Bind.bind, Except.bind, pure, Except.pure] at hm
            injection hm with hx
            rw [← hx] at hs
            rw [mem_managedSkillsScan_location hs]
            rfl
      rw [List.pairwise_append]
      refine ⟨pairwise_rank_of_const huser, ?_, ?_⟩
      · rw [List.pairwise_append]
        refine ⟨pairwise_rank_of_const hproj, pairwise_rank_of_const hman, ?_⟩
        intro a ha b hb
        rw [hproj a ha, hman b hb]
        omega
      · intro a ha b hb
        rw [huser a ha]
        rcases List.mem_append.mp hb with h1 | h2
        · rw [hproj b h1]; omega
        · rw [hman b h2]; omega

/-- Claim C2: a subdirectory is materialized as a Skill only if `skill.json`
exists directly inside it — every skill in a scan result has an existing
`skill.json` under its directory, so a directory lacking it (whatever else it
contains) never appears. -/
theorem c2_skill_requires_descriptor {J : Type} (env : Env J) (dirPath : String)
    (loc : SkillLocation) (pn : Option String) (s : Skill)
    (hs : s ∈ loadSkillsFromDirectory env dirPath loc pn) :
    env.existsSync (pathJoin (pathJoin dirPath s.name) "skill.json") = true := by
  unfold loadSkillsFromDirectory at hs
  split at hs
  · simp at hs
  · split at hs
    · simp at hs
    · obtain ⟨e, _, he⟩ := List.mem_filterMap.mp hs
      unfold processSkillEntry at he
      simp only [] at he
      split at he
      · exact absurd he (by simp)
      · split at he
        · exact absurd he (by simp)
        · rename_i hcond
          split at he
          · exact absurd he (by simp)
          · injection he with h1
            subst h1
            simpa using hcond

/-- Claim C5: a missing scan root yields the empty sequence (no error), and a
single failing candidate entry is omitted while the rest of the scan result is
kept (for the Skills and the Agents scan; the scans are total functions, so no
error escapes them by construction). -/
theorem c5_scan_failure_isolation {J : Type} (env : Env J) :
    (∀ d loc pn, env.existsSync d = false →
      loadSkillsFromDirectory env d loc pn = []) ∧
    (∀ d, env.existsSync d = false → loadAgentsFromDirectory env d = []) ∧
    (∀ d loc pn (pre post : List DirEnt) (bad : DirEnt), env.existsSync d = true →
      env.readdirSync d = .ok (pre ++ bad :: post) →
      processSkillEntry env d loc pn bad = none →
      loadSkillsFromDirectory env d loc pn =
        pre.filterMap (processSkillEntry env d loc pn) ++
          post.filterMap (processSkillEntry env d loc pn)) ∧
    (∀ d (pre post : List DirEnt) (bad : DirEnt), env.existsSync d = true →
      env.readdirSync d = .ok (pre ++ bad :: post) →
      processAgentFile env d bad.name = none →
      loadAgentsFromDirectory env d =
        (pre.map DirEnt.name).filterMap (processAgentFile env d) ++
          (post.map DirEnt.name).filterMap (processAgentFile env d)) ∧
    (∀ d, env.existsSync d = false → loadCommandsFromDirectory env d = []) ∧
    (∀ d (pre post : List DirEnt) (bad : DirEnt), env.existsSync d = true →
      env.readdirSync d = .ok (pre ++ bad :: post) →
      processCommandFile env d bad.name = none →
      loadCommandsFromDirectory env d =
        (pre.map DirEnt.name).filterMap (processCommandFile env d) ++
          (post.map DirEnt.name).filterMap (processCommandFile env d)) := by
  refine ⟨fun d loc pn h => ?_, fun d h => ?_,
    fun d loc pn pre post bad hex hdir hbad => ?_,
    fun d pre post bad hex hdir hbad => ?_,
    fun d h => ?_,
    fun d pre post bad hex hdir hbad => ?_⟩
  · unfold loadSkillsFromDirectory
    rw [if_pos]
    rw [h]
    rfl
  · unfold loadAgentsFromDirectory
    rw [if_pos]
    rw [h]
    rfl
  · unfold loadSkillsFromDirectory
    rw [hdir, hex]
    simp [List.filterMap_append, hbad]
  · unfold loadAgentsFromDirectory
    rw [hdir, hex]
    simp [List.filterMap_append, List.map_append, hbad]
  · unfold loadCommandsFromDirectory
    rw [if_pos]
    rw [h]
    rfl
  · unfold loadCommandsFromDirectory
    rw [hdir, hex]
    simp [List.filterMap_append, List.map_append, hbad]

/-- Claim C3: search loads non-forcingly and filters by location first and the
three-field case-insensitive substring match second; the empty query with no
filter returns the loaded sequence (and state) unchanged; lower-casing the
query does not change the result. -/
theorem c3_search_semantics {J : Type} (env : Env J) (now : Nat) (st : SkillsState) :
    (∀ q lf, searchSkills env now q lf st =
      (((loadSkills env now false st).1).filter
         (fun s => locationOk lf s && skillMatchesQuery (jsToLower q) s),
       (loadSkills env now false st).2)) ∧
    searchSkills env now "" none st = loadSkills env now false st ∧
    (∀ q lf, searchSkills env now (jsToLower q) lf st = searchSkills env now q lf st) := by
  refine ⟨fun q lf => rfl, ?_, fun q lf => ?_⟩
  · unfold searchSkills
    simp only []
    have hall : ∀ s ∈ (loadSkills env now false st).1,
        (locationOk none s && skillMatchesQuery (jsToLower "") s) = true := by
      intro s _
      simp only [locationOk, skillMatchesQuery, containsSub, Bool.and_eq_true]
      exact ⟨trivial, by rw [show (jsToLower "").data = [] from rfl, isInfixB_nil]; rfl⟩
    rw [List.filter_eq_self.mpr hall]
  · unfold searchSkills
    rw [jsToLower_idem]

/-- Claim C8: `getSkillDetails` loads non-forcingly (the state after the call
is the state the non-forcing load established), searches the loaded sequence
for the first entry matching name and location exactly, and when none exists
returns `none` without any error escaping (the function is total). -/
theorem c8_details_not_found {J : Type} (env : Env J) (now : Nat)
    (skillName : String) (loc : SkillLocation) (st : SkillsState) :
    (getSkillDetails env now skillName loc st).2 = (loadSkills env now false st).2 ∧
    ((loadSkills env now false st).1.find?
        (fun s => s.name == skillName && s.location == loc) = none →
      (getSkillDetails env now skillName loc st).1 = none) := by
  constructor
  · unfold getSkillDetails
    simp only []
    split
    · rfl
    · split
      · rfl
      · split
        · rfl
        · split <;> rfl
  · intro hf
    unfold getSkillDetails
    simp only []
    rw [hf]

/-- Claim C10: neither search nor the two detail lookups modify the state
beyond the embedded non-forcing load, and a returned Detail embeds exactly the
found cached Entry (its Entry fields are the found entry's fields). -/
theorem c10_read_only_accessors {J : Type} (env : Env J) (now : Nat) :
    (∀ (st : SkillsState) q lf,
      (searchSkills env now q lf st).2 = (loadSkills env now false st).2) ∧
    (∀ (st : SkillsState) n loc,
      (getSkillDetails env now n loc st).2 = (loadSkills env now false st).2) ∧
    (∀ (st : SkillsState) n loc (d : SkillDetails J),
      (getSkillDetails env now n loc st).1 = some d →
      (loadSkills env now false st).1.find?
        (fun s => s.name == n && s.location == loc) = some d.toSkill) ∧
    (∀ (ast : AgentsState) n,
      (getAgentDetails env now n ast).2 = (loadAgents env now false ast).2) ∧
    (∀ (ast : AgentsState) n (d : AgentDetails),
      (getAgentDetails env now n ast).1 = some d →
      (loadAgents env now false ast).1.find? (fun a => a.name == n) = some d.toAgent) := by
  refine ⟨fun st q lf => rfl, fun st n loc => (c8_details_not_found env now n loc st).1,
    fun st n loc d hd => ?_, fun ast n => ?_, fun ast n d hd => ?_⟩
  · unfold getSkillDetails at hd
    simp only [] at hd
    split at hd
    · exact absurd hd (by simp)
    · rename_i skill hfind
      split at hd
      · exact absurd hd (by simp)
      · split at hd
        · exact absurd hd (by simp)
        · split at hd
          · exact absurd hd (by simp)
          · rw [hfind]
            simp only [Option.some.injEq] at hd
            rw [← hd]
  · unfold getAgentDetails
    simp only []
    split
    · rfl
    · split
      · rfl
      · split
        · rfl
        · split <;> rfl
  · unfold getAgentDetails at hd
    simp only [] at hd
    split at hd
    · exact absurd hd (by simp)
    · rename_i agent hfind
      split at hd
      · exact absurd hd (by simp)
      · split at hd
        · exact absurd hd (by simp)
        · split at hd
          · exact absurd hd (by simp)
          · rw [hfind]
            simp only [Option.some.injEq] at hd
            rw [← hd]

/-- Claim C9: an unrecognized tag produces no outbound message at all, and a
throw from a recognized handler is answered by exactly one error response
(appended after whatever the handler had already posted) carrying the
request's correlation identifier and the error's message text; the router is a
total function, so it never throws to its caller. -/
theorem c9_router_error_policy {ρ : Type} (handlers : String → InboundMsg ρ → HandlerRun ρ)
    (msg : InboundMsg ρ) :
    (msg.type ∉ recognizedTags → handleMessage handlers msg = []) ∧
    (∀ e, msg.type ∈ recognizedTags → (handlers msg.type msg).thrown = some e →
      handleMessage handlers msg = (handlers msg.type msg).sent ++
        [{ type := "error", requestId := msg.requestId,
           error := some (jsErrorText e) }]) ∧
    (msg.type ∈ recognizedTags → (handlers msg.type msg).thrown = none →
      handleMessage handlers msg = (handlers msg.type msg).sent) := by
  refine ⟨fun hn => ?_, fun e hm ht => ?_, fun hm ht => ?_⟩
  · unfold handleMessage
    rw [if_neg]
    intro hc
    exact hn (List.elem_iff.mp hc)
  · unfold handleMessage
    rw [if_pos (List.elem_iff.mpr hm)]
    simp only [ht]
  · unfold handleMessage
    rw [if_pos (List.elem_iff.mpr hm)]
    simp only [ht]

/-- Claim C4: the description-extraction heuristic on the three specified
contents (frontmatter description wins, then first single-hash heading line,
else absent), and in general whenever the leading frontmatter block matches
and contains a description line, extraction returns that captured remainder
trimmed (the heading is not consulted). -/
theorem c4_extract_description :
    extractDescription "---\ndescription: hello\n---\n# Title" = some "hello" ∧
    extractDescription "# Title Only" = some "Title Only" ∧
    extractDescription "no frontmatter and no heading" = none ∧
    (∀ (content : String) (fm cap : List Char),
      frontmatterCapture content.data = some fm → descSearch fm = some cap →
      extractDescription content = some (jsTrim ⟨cap⟩)) := by
  refine ⟨by decide, by decide, by decide, fun content fm cap h1 h2 => ?_⟩
  unfold extractDescription
  rw [h1]
  simp only []
  rw [h2]

/-- Witness for C4 at the specified frontmatter example. -/
theorem c4_extract_description_witness :
    extractDescription "---\ndescription: hello\n---\n# Title" =
      some (jsTrim ⟨"hello".data⟩) :=
  c4_extract_description.2.2.2 "---\ndescription: hello\n---\n# Title"
    ("description: hello".data) ("hello".data) (by decide) (by decide)

/-! ## Concrete witness environment

A small filesystem: one valid user skill `a`, one skill directory `b` whose
`skill.json` exists but fails to read, a non-directory entry `sub`, and an
agents root with one valid agent `x.md`, one unreadable `bad.md` and a
non-markdown `notes.txt`.  The project and plugin roots do not exist. -/

def wEnv : Env Unit where
  existsSync := fun p =>
    p == "/h/.claude/skills" || p == "/h/.claude/skills/a/skill.json" ||
    p == "/h/.claude/skills/b/skill.json" || p == "/h/.claude/agents" ||
    p == "/h/.claude/agents/x.md"
  readdirSync := fun p =>
    if p == "/h/.claude/skills" then
      .ok [⟨"a", true⟩, ⟨"b", true⟩, ⟨"sub", false⟩]
    else if p == "/h/.claude/agents" then
      .ok [⟨"x.md", false⟩, ⟨"bad.md", false⟩, ⟨"notes.txt", false⟩]
    else .error "boom"
  readFileSync := fun p =>
    if p == "/h/.claude/skills/a/skill.json" then .ok "json-a"
    else if p == "/h/.claude/agents/x.md" then .ok "# X agent"
    else .error "boom"
  parseJson := fun _ => .ok ()
  descriptionField := fun _ => some "does a"
  homedir := .ok "/h"
  cwd := .ok "/c"

/-- The single skill `wEnv` materializes. -/
def wSkillA : Skill where
  name := "a"
  location := .user
  path := "/h/.claude/skills/a"
  description := some "does a"
  pluginName := none
  hasReadme := false
  hasPrompt := false

/-- The single agent `wEnv` materializes. -/
def wAgentX : Agent where
  name := "x"
  path := "/h/.claude/agents/x.md"
  description := some "X agent"
  hasReadme := false

/-- Witness for C1 at `wEnv`. -/
theorem c1_forced_load_location_order_witness :
    (loadSkills wEnv 7 true ⟨none, 0⟩).1 =
      loadSkillsFromDirectory wEnv (pathJoin3 "/h" ".claude" "skills") .user none ++
      loadSkillsFromDirectory wEnv (pathJoin3 "/c" ".claude" "skills") .project none ++
      managedSkillsScan wEnv "/h" :=
  (c1_forced_load_location_order wEnv 7 ⟨none, 0⟩).1 "/h" "/c" rfl rfl

/-- Witness for C2 at `wEnv`: the materialized skill `a` has its descriptor. -/
theorem c2_skill_requires_descriptor_witness :
    wEnv.existsSync (pathJoin (pathJoin "/h/.claude/skills" wSkillA.name) "skill.json") =
      true :=
  c2_skill_requires_descriptor wEnv "/h/.claude/skills" .user none wSkillA (by decide)

/-- Witness for C5 at `wEnv`: the missing project root scans to empty, and the
unreadable skill directory `b` (respectively agent file `bad.md`) is dropped
while its neighbours survive. -/
theorem c5_scan_failure_isolation_witness :
    loadSkillsFromDirectory wEnv "/c/.claude/skills" .project none = [] ∧
    loadAgentsFromDirectory wEnv "/nope" = [] ∧
    loadSkillsFromDirectory wEnv "/h/.claude/skills" .user none =
      [DirEnt.mk "a" true].filterMap (processSkillEntry wEnv "/h/.claude/skills" .user none) ++
      [DirEnt.mk "sub" false].filterMap (processSkillEntry wEnv "/h/.claude/skills" .user none) ∧
    loadAgentsFromDirectory wEnv "/h/.claude/agents" =
      ([DirEnt.mk "x.md" false].map DirEnt.name).filterMap
        (processAgentFile wEnv "/h/.claude/agents") ++
      ([DirEnt.mk "notes.txt" false].map DirEnt.name).filterMap
        (processAgentFile wEnv "/h/.claude/agents") ∧
    loadCommandsFromDirectory wEnv "/nope" = [] ∧
    loadCommandsFromDirectory wEnv "/h/.claude/agents" =
      ([DirEnt.mk "x.md" false].map DirEnt.name).filterMap
        (processCommandFile wEnv "/h/.claude/agents") ++
      ([DirEnt.mk "notes.txt" false].map DirEnt.name).filterMap
        (processCommandFile wEnv "/h/.claude/agents") :=
  ⟨(c5_scan_failure_isolation wEnv).1 "/c/.claude/skills" .project none (by decide),
   (c5_scan_failure_isolation wEnv).2.1 "/nope" (by decide),
   (c5_scan_failure_isolation wEnv).2.2.1 "/h/.claude/skills" .user none
     [⟨"a", true⟩] [⟨"sub", false⟩] ⟨"b", true⟩ (by decide) rfl (by decide),
   (c5_scan_failure_isolation wEnv).2.2.2.1 "/h/.claude/agents"
     [⟨"x.md", false⟩] [⟨"notes.txt", false⟩] ⟨"bad.md", false⟩ (by decide) rfl (by decide),
   (c5_scan_failure_isolation wEnv).2.2.2.2.1 "/nope" (by decide),
   (c5_scan_failure_isolation wEnv).2.2.2.2.2 "/h/.claude/agents"
     [⟨"x.md", false⟩] [⟨"notes.txt", false⟩] ⟨"bad.md", false⟩ (by decide) rfl (by decide)⟩

/-- Witness for C8 at `wEnv`: looking up an absent name yields `none`. -/
theorem c8_details_not_found_witness :
    (getSkillDetails wEnv 7 "zzz" .user ⟨none, 0⟩).1 = none :=
  (c8_details_not_found wEnv 7 "zzz" .user ⟨none, 0⟩).2 (by decide)

/-- The Detail `wEnv` returns for skill `a`. -/
def wDetailA : SkillDetails Unit where
  toSkill := wSkillA
  skillJson := some ()
  readmeContent := none
  promptContent := none

/-- The Detail `wEnv` returns for agent `x`. -/
def wAgentDetailX : AgentDetails where
  toAgent := wAgentX
  content := some "# X agent"
  readmeContent := none

/-- Witness for C10 at `wEnv`: the Details returned for skill `a` and agent
`x` embed exactly the cached entries found for them. -/
theorem c10_read_only_accessors_witness :
    (loadSkills wEnv 7 false ⟨none, 0⟩).1.find?
        (fun s => s.name == "a" && s.location == SkillLocation.user) =
      some wDetailA.toSkill ∧
    (loadAgents wEnv 7 false ⟨none, 0⟩).1.find? (fun a => a.name == "x") =
      some wAgentDetailX.toAgent :=
  ⟨(c10_read_only_accessors wEnv 7).2.2.1 ⟨none, 0⟩ "a" .user wDetailA (by decide),
   (c10_read_only_accessors wEnv 7).2.2.2.2 ⟨none, 0⟩ "x" wAgentDetailX (by decide)⟩

/-- Handlers for the router witness: every handler posts nothing; a `getSkills`
request throws an `Error` with message `kaput`. -/
def wHandlers : String → InboundMsg Unit → HandlerRun Unit := fun tag _ =>
  if tag == "getSkills" then ⟨[], some (some "kaput")⟩ else ⟨[], none⟩

/-- Witness for C9 at concrete messages: an unknown tag gets no response; a
throwing recognized handler gets exactly the one error response. -/
theorem c9_router_error_policy_witness :
    handleMessage wHandlers ⟨"bogus", some ()⟩ = [] ∧
    handleMessage wHandlers ⟨"getSkills", some ()⟩ =
      [{ type := "error", requestId := some (), error := some (jsErrorText (some "kaput")) }] :=
  ⟨(c9_router_error_policy wHandlers ⟨"bogus", some ()⟩).1 (by decide),
   (c9_router_error_policy wHandlers ⟨"getSkills", some ()⟩).2.1 (some "kaput")
     (by decide) (by decide)⟩

end ClaudeMgmt
